import Mathlib

set_option maxRecDepth 16384

/-!
Shallow embedding of the repository's CSS dark-mode merge tool
(`src/merge_dark_mode.py`).  The program is line-oriented: the stylesheet is
split on newline characters, each line is a `List Char`, and the single
function `merge_dark_mode_css` rewrites the line sequence.  All machine work
in the source is plain string scanning, so the embedding uses executable
functions on `List Char`.  Recursions that are not structural in the source
(the regex substitution, the outer merge loop, `str.replace`) are written
with an explicit fuel argument that is always instantiated with the input
length; a fuel-irrelevance lemma below shows any sufficient fuel computes the
same value, which is exactly the termination argument of the Python loops
(the scan index strictly increases).
-/

/-- The whitespace test used for Python's `str.strip` and for `\s` in the
regular expressions (ASCII range, which covers all inputs considered here). -/
def isPySpace (c : Char) : Bool :=
  c == ' ' || c == '\t' || c == '\n' || c == '\r' || c == '\x0b' || c == '\x0c'

/-- The opening brace character (written via its code point). -/
def obr : Char := '\x7b'

/-- The closing brace character (written via its code point). -/
def cbr : Char := '\x7d'

/-- Whether a character list starts with a whitespace character. -/
def headIsWs : List Char → Bool
  | [] => false
  | c :: _ => isPySpace c

/-- Python's substring test `p in l`. -/
def containsSub (p : List Char) : List Char → Bool
  | [] => p.isEmpty
  | c :: cs => p.isPrefixOf (c :: cs) || containsSub p cs

/-- Python's `l.count(c)` for a single character. -/
def countChar (c : Char) (l : List Char) : Nat := l.count c

/-- `line.count('{') - line.count('}')`, the per-line brace balance. -/
def braceDelta (l : List Char) : Int :=
  (countChar obr l : Int) - (countChar cbr l : Int)

/-- Python's `l.strip()`. -/
def pyStrip (l : List Char) : List Char :=
  ((l.dropWhile isPySpace).reverse.dropWhile isPySpace).reverse

/-- The characters of `".dark-mode"`, the dark-scope marker stem. -/
def darkMarker : List Char := ['.', 'd', 'a', 'r', 'k', '-', 'm', 'o', 'd', 'e']

/-- The characters of `"body.dark-mode"`. -/
def bodyMarker : List Char := ['b', 'o', 'd', 'y'] ++ darkMarker

/-- The characters of `"/*"`, the comment test of the source. -/
def commentOpen : List Char := ['/', '*']

/-- The test `'body.dark-mode' in line or '.dark-mode' in line` of the source,
selecting the dark-rule branch. -/
def isDarkLine (l : List Char) : Bool :=
  containsSub bodyMarker l || containsSub darkMarker l

/-- The override test for one candidate line:
`f'body.dark-mode {selector}' in line or f'.dark-mode {selector}' in line`. -/
def matchesOverride (sel l : List Char) : Bool :=
  containsSub (bodyMarker ++ ' ' :: sel) l || containsSub (darkMarker ++ ' ' :: sel) l

/-- The forward lookahead of the source: scan the following lines; return
`true` on the first line matching the scoped selector; give up (`false`) after
a line that individually contains more than `3` opening braces. -/
def hasDarkOverride (sel : List Char) : List (List Char) → Bool
  | [] => false
  | l :: rest =>
    if matchesOverride sel l then true
    else if 3 < countChar obr l then false
    else hasDarkOverride sel rest

/-- Follows the spec's words, for comparison with `hasDarkOverride` (the
code's lookahead): the spec says the scan stops early after the cumulative
count of opening braces over the scanned candidate lines reaches `4` or more,
whereas the code tests each candidate line individually.  `acc` is the
cumulative count of opening braces seen so far. -/
def specCumulativeLookahead (sel : List Char) : Nat → List (List Char) → Bool
  | _, [] => false
  | acc, l :: rest =>
    if matchesOverride sel l then true
    else if 4 ≤ acc + countChar obr l then false
    else specCumulativeLookahead sel (acc + countChar obr l) rest

/-- The dark-rule block capture loop of the source
(`while i < len(lines) and (brace_count > 0 or '}' not in lines[i]): ...`
with the `break` once the balance drops to `0` or below).  Returns the
captured lines and the remaining lines (the position of the scan index when
the loop exits). -/
def captureBlock (bc : Int) : List (List Char) → List (List Char) × List (List Char)
  | [] => ([], [])
  | l :: rest =>
    if bc > 0 || !(l.contains cbr) then
      if bc + braceDelta l ≤ 0 then ([l], rest)
      else
        let p := captureBlock (bc + braceDelta l) rest
        (l :: p.1, p.2)
    else ([], l :: rest)

/-- The lines appended to `rule_lines` after the opening line: the captured
block followed by the unconditional `if i < len(lines): rule_lines.append(lines[i])`
of the source, which absorbs one further line verbatim whenever one remains. -/
def absorbed (bc : Int) (rest : List (List Char)) : List (List Char) :=
  (captureBlock bc rest).1 ++ (captureBlock bc rest).2.take 1

/-- The lines still to process after a dark-rule block (the absorbed extra
line, when present, is consumed by the trailing `i += 1` of the loop body). -/
def afterCapture (bc : Int) (rest : List (List Char)) : List (List Char) :=
  (captureBlock bc rest).2.tail

/-- The skip loop of the source for an overridden base rule
(`while i < len(lines) and brace_count > 0: ...`). -/
def skipBlock (bc : Int) : List (List Char) → List (List Char)
  | [] => []
  | l :: rest => if bc > 0 then skipBlock (bc + braceDelta l) rest else l :: rest

/-- One pass of Python's `re.sub(pat + r'\s+', '', l)` for a literal `pat`:
scan left to right; at each position, if `pat` occurs followed by at least one
whitespace character, delete `pat` together with the maximal whitespace run
and continue scanning after the deleted region.  Fueled by `n` (the input
length always suffices, since every step consumes at least one character). -/
def reSubWsN (pat : List Char) : Nat → List Char → List Char
  | _, [] => []
  | 0, _ :: _ => []
  | n + 1, c :: cs =>
    if !pat.isEmpty && pat.isPrefixOf (c :: cs) && headIsWs ((c :: cs).drop pat.length) then
      reSubWsN pat n (((c :: cs).drop pat.length).dropWhile isPySpace)
    else c :: reSubWsN pat n cs

/-- The two substitutions of the source applied to a dark-rule opening line:
`re.sub(r'body\.dark-mode\s+', '', line)` then `re.sub(r'\.dark-mode\s+', '', ...)`. -/
def stripMarker (l : List Char) : List Char :=
  let s := reSubWsN bodyMarker l.length l
  reSubWsN darkMarker s.length s

/-- The non-dark branch test of the source:
`line.strip() and '{' in line and not line.strip().startswith('/*')`. -/
def isRuleOpener (l : List Char) : Bool :=
  !(pyStrip l).isEmpty && l.contains obr && !(commentOpen.isPrefixOf (pyStrip l))

/-- `line.split('{')[0].strip()`, the base selector of a rule-opening line. -/
def lineSelector (l : List Char) : List Char :=
  pyStrip (l.takeWhile (fun c => c != obr))

/-- The main loop of `merge_dark_mode_css`, fueled by `n` (the number of
remaining lines always suffices; every iteration consumes at least one line).
`merged` is the `merged_selectors` set of the source, modeled as the list of
keys added so far. -/
def mergeAuxN : Nat → List (List Char) → List (List Char) → List (List Char)
  | _, [], _ => []
  | 0, _ :: _, _ => []
  | n + 1, line :: rest, merged =>
    if isDarkLine line then
      if pyStrip (stripMarker line) ∈ merged then
        mergeAuxN n (afterCapture (braceDelta line) rest) merged
      else
        stripMarker line :: absorbed (braceDelta line) rest ++
          mergeAuxN n (afterCapture (braceDelta line) rest) (pyStrip (stripMarker line) :: merged)
    else if isRuleOpener line then
      if hasDarkOverride (lineSelector line) rest then
        mergeAuxN n (skipBlock (braceDelta line) rest) merged
      else line :: mergeAuxN n rest merged
    else line :: mergeAuxN n rest merged

/-- The merge loop started on a line list with accumulator `merged`. -/
def mergeFrom (ls merged : List (List Char)) : List (List Char) :=
  mergeAuxN ls.length ls merged

/-- The merge loop on a line list with the empty accumulator, as in the source. -/
def mergeLines (ls : List (List Char)) : List (List Char) := mergeFrom ls []

/-- `css_content.split('\n')`. -/
def splitNl (css : List Char) : List (List Char) := List.splitOn '\n' css

/-- `'\n'.join(lines)`. -/
def joinNl (ls : List (List Char)) : List Char := List.intercalate ['\n'] ls

/-- The whole function `merge_dark_mode_css` of `src/merge_dark_mode.py`. -/
def merge_dark_mode_css (css : List Char) : List Char :=
  joinNl (mergeLines (splitNl css))

/-- The characters of `".css"`. -/
def cssExt : List Char := ['.', 'c', 's', 's']

/-- The characters of `"_merged.css"`. -/
def mergedExt : List Char := ['_', 'm', 'e', 'r', 'g', 'e', 'd', '.', 'c', 's', 's']

/-- Python's `s.replace(old, new)` for a nonempty `old`: replace every
non-overlapping occurrence, scanning left to right.  Fueled by `n` (the input
length always suffices). -/
def replaceAllN (old new : List Char) : Nat → List Char → List Char
  | _, [] => []
  | 0, _ :: _ => []
  | n + 1, c :: cs =>
    if !old.isEmpty && old.isPrefixOf (c :: cs) then
      new ++ replaceAllN old new n ((c :: cs).drop old.length)
    else c :: replaceAllN old new n cs

/-- The output file naming of the `__main__` block:
`output_file = css_file.replace('.css', '_merged.css')`. -/
def output_path (p : List Char) : List Char :=
  replaceAllN cssExt mergedExt p.length p

/-! ### Basic lemmas about the string primitives -/

/-- Python's substring test agrees with the infix relation on character lists. -/
theorem containsSub_iff (p l : List Char) : containsSub p l = true ↔ p <:+: l := by
  induction l with
  | nil =>
    simp only [containsSub, List.isEmpty_iff, List.infix_nil]
  | cons c cs ih =>
    simp only [containsSub, Bool.or_eq_true, ih, List.infix_cons_iff,
       List.isPrefixOf_iff_prefix]

/-- An infix of `a` is an infix of `a ++ b`. -/
theorem infix_extend_right {p a : List Char} (b : List Char) (h : p <:+: a) :
    p <:+: a ++ b := by
  obtain ⟨s, t, hst⟩ := h
  exact ⟨s, t ++ b, by rw [← hst]; simp⟩

/-- Substring containment is monotone along the infix order on patterns. -/
theorem containsSub_mono {q p l : List Char} (hqp : q <:+: p)
    (h : containsSub p l = true) : containsSub q l = true := by
  rw [containsSub_iff] at h ⊢
  exact hqp.trans h

/-- A pattern that starts the string is found by the substring test. -/
theorem containsSub_of_start (p b : List Char) : containsSub p (p ++ b) = true := by
  rw [containsSub_iff]
  exact ( List.prefix_append p b).isInfix

/-! ### The scans stay inside their input -/

/-- The remaining lines after the capture loop form a suffix of its input. -/
theorem captureBlock_snd_suffix (bc : Int) (ls : List (List Char)) :
    (captureBlock bc ls).2 <:+ ls := by
  induction ls generalizing bc with
  | nil => simp [captureBlock]
  | cons l rest ih =>
    simp only [captureBlock]
    split
    · split
      · exact List.suffix_cons l rest
      · exact ((ih _).trans (List.suffix_cons l rest))
    · exact List.suffix_rfl

/-- Every line captured by the capture loop is an input line. -/
theorem mem_captureBlock_fst {a : List Char} (bc : Int) (ls : List (List Char))
    (h : a ∈ (captureBlock bc ls).1) : a ∈ ls := by
  induction ls generalizing bc with
  | nil => simp [captureBlock] at h
  | cons l rest ih =>
    simp only [captureBlock] at h
    revert h
    split
    · split
      · intro h
        simp only [List.mem_singleton] at h
        simp [h]
      · intro h
        rcases List.mem_cons.mp h with h | h
        · simp [h]
        · exact List.mem_cons_of_mem _ (ih _ h)
    · intro h
      simp at h

/-- The skip loop returns a suffix of its input. -/
theorem skipBlock_suffix (bc : Int) (ls : List (List Char)) :
    skipBlock bc ls <:+ ls := by
  induction ls generalizing bc with
  | nil => simp [skipBlock]
  | cons l rest ih =>
    simp only [skipBlock]
    split
    · exact (ih _).trans (List.suffix_cons l rest)
    · exact List.suffix_rfl

/-- The lines left after a dark block (capture plus absorbed line) form a
suffix of the lines following the opening line. -/
theorem afterCapture_suffix (bc : Int) (ls : List (List Char)) :
    afterCapture bc ls <:+ ls :=
  (List.tail_suffix _).trans (captureBlock_snd_suffix bc ls)

/-- Every line of an emitted dark block after its opening line is an input line. -/
theorem mem_absorbed {a : List Char} (bc : Int) (ls : List (List Char))
    (h : a ∈ absorbed bc ls) : a ∈ ls := by
  rcases List.mem_append.mp h with h | h
  · exact mem_captureBlock_fst bc ls h
  · exact (captureBlock_snd_suffix bc ls).subset (List.mem_of_mem_take h)

theorem afterCapture_length_le (bc : Int) (ls : List (List Char)) :
    (afterCapture bc ls).length ≤ ls.length :=
  (afterCapture_suffix bc ls).length_le

theorem skipBlock_length_le (bc : Int) (ls : List (List Char)) :
    (skipBlock bc ls).length ≤ ls.length :=
  (skipBlock_suffix bc ls).length_le

/-! ### Fuel irrelevance: the merge loop finishes within input-length steps -/

theorem mergeAuxN_fuel :
    ∀ n m (ls merged : List (List Char)), ls.length ≤ n → ls.length ≤ m →
      mergeAuxN n ls merged = mergeAuxN m ls merged := by
  intro n
  induction n with
  | zero =>
    intro m ls merged hn _
    have hls : ls = [] := List.length_eq_zero.mp (Nat.le_zero.mp hn)
    subst hls
    cases m <;> rfl
  | succ n ih =>
    intro m ls merged hn hm
    cases ls with
    | nil => cases m <;> rfl
    | cons line rest =>
      cases m with
      | zero => exact absurd hm (by simp)
      | succ m =>
        have hr : rest.length ≤ n := by simpa using hn
        have hrm : rest.length ≤ m := by simpa using hm
        simp only [mergeAuxN]
        by_cases hd : isDarkLine line = true
        · by_cases hmem : pyStrip (stripMarker line) ∈ merged
          · simp only [hd, if_true, hmem, if_pos]
            exact ih m _ _ ((afterCapture_length_le _ _).trans hr)
              ((afterCapture_length_le _ _).trans hrm)
          · simp only [hd, if_true, hmem, if_neg, not_false_iff]
            rw [ih m _ _ ((afterCapture_length_le _ _).trans hr)
              ((afterCapture_length_le _ _).trans hrm)]
        · have hd' : isDarkLine line = false := by simpa using hd
          simp only [hd', Bool.false_eq_true, if_false]
          by_cases ho : isRuleOpener line = true
          · simp only [ho, if_true]
            by_cases hov : hasDarkOverride (lineSelector line) rest = true
            · simp only [hov, if_true]
              exact ih m _ _ ((skipBlock_length_le _ _).trans hr)
                ((skipBlock_length_le _ _).trans hrm)
            · have hov' : hasDarkOverride (lineSelector line) rest = false := by
                simpa using hov
              simp only [hov', Bool.false_eq_true, if_false]
              rw [ih m _ _ hr hrm]
          · have ho' : isRuleOpener line = false := by simpa using ho
            simp only [ho', Bool.false_eq_true, if_false]
            rw [ih m _ _ hr hrm]

/-! ### One-step unfolding of the merge loop -/

theorem mergeFrom_nil (merged : List (List Char)) : mergeFrom [] merged = [] := rfl

/-- Dark opening line whose dedup key is new: the stripped opening line, the
captured block and the absorbed extra line are emitted, the key is recorded,
and the loop continues after the block. -/
theorem mergeFrom_cons_dark_emit (line : List Char) (rest merged : List (List Char))
    (hd : isDarkLine line = true) (hmem : pyStrip (stripMarker line) ∉ merged) :
    mergeFrom (line :: rest) merged =
      stripMarker line :: absorbed (braceDelta line) rest ++
        mergeFrom (afterCapture (braceDelta line) rest)
          (pyStrip (stripMarker line) :: merged) := by
  unfold mergeFrom
  simp only [List.length_cons, mergeAuxN, hd, if_true, hmem, if_neg, not_false_iff]
  rw [mergeAuxN_fuel rest.length (afterCapture (braceDelta line) rest).length _ _
    (afterCapture_length_le _ _) le_rfl]

/-- Dark opening line whose dedup key was already emitted: the whole block
(captured lines and absorbed extra line included) is dropped. -/
theorem mergeFrom_cons_dark_discard (line : List Char) (rest merged : List (List Char))
    (hd : isDarkLine line = true) (hmem : pyStrip (stripMarker line) ∈ merged) :
    mergeFrom (line :: rest) merged =
      mergeFrom (afterCapture (braceDelta line) rest) merged := by
  unfold mergeFrom
  simp only [List.length_cons, mergeAuxN, hd, if_true, hmem, if_pos]
  exact mergeAuxN_fuel rest.length (afterCapture (braceDelta line) rest).length _ _
    (afterCapture_length_le _ _) le_rfl

/-- Non-dark rule-opening line with a detected override: the whole base block
is skipped and nothing is emitted for it. -/
theorem mergeFrom_cons_skip (line : List Char) (rest merged : List (List Char))
    (hd : isDarkLine line = false) (ho : isRuleOpener line = true)
    (hov : hasDarkOverride (lineSelector line) rest = true) :
    mergeFrom (line :: rest) merged =
      mergeFrom (skipBlock (braceDelta line) rest) merged := by
  unfold mergeFrom
  simp only [List.length_cons, mergeAuxN, hd, Bool.false_eq_true, if_false, ho,
    if_true, hov]
  exact mergeAuxN_fuel rest.length (skipBlock (braceDelta line) rest).length _ _
    (skipBlock_length_le _ _) le_rfl

/-- Non-dark rule-opening line without a detected override: the line is
emitted unchanged and scanning continues with the next line. -/
theorem mergeFrom_cons_emit (line : List Char) (rest merged : List (List Char))
    (hd : isDarkLine line = false) (ho : isRuleOpener line = true)
    (hov : hasDarkOverride (lineSelector line) rest = false) :
    mergeFrom (line :: rest) merged = line :: mergeFrom rest merged := by
  unfold mergeFrom
  simp only [List.length_cons, mergeAuxN, hd, Bool.false_eq_true, if_false, ho,
    if_true, hov]

/-- Any other line passes through unchanged. -/
theorem mergeFrom_cons_pass (line : List Char) (rest merged : List (List Char))
    (hd : isDarkLine line = false) (ho : isRuleOpener line = false) :
    mergeFrom (line :: rest) merged = line :: mergeFrom rest merged := by
  unfold mergeFrom
  simp only [List.length_cons, mergeAuxN, hd, Bool.false_eq_true, if_false, ho]

/-! ### The marker substitution -/

/-- If the pattern does not occur in the line, the substitution is the
identity (any sufficient fuel). -/
theorem reSubWsN_of_not_contains (pat : List Char) :
    ∀ n (l : List Char), l.length ≤ n → containsSub pat l = false →
      reSubWsN pat n l = l := by
  intro n
  induction n with
  | zero =>
    intro l h _
    have hl : l = [] := List.length_eq_zero.mp (Nat.le_zero.mp h)
    subst hl
    rfl
  | succ n ih =>
    intro l h hc
    cases l with
    | nil => rfl
    | cons c cs =>
      simp only [containsSub, Bool.or_eq_false_iff] at hc
      simp only [reSubWsN, hc.1, Bool.false_and, Bool.and_false, Bool.false_eq_true,
        if_false]
      rw [ih cs (by simpa using h) hc.2]

/-- `dropWhile` is the identity on a list that does not start with whitespace. -/
theorem dropWhile_of_headIsWs_false (l : List Char) (h : headIsWs l = false) :
    l.dropWhile isPySpace = l := by
  cases l with
  | nil => rfl
  | cons c cs =>
    simp only [headIsWs] at h
    simp [List.dropWhile, h]

/-- One substitution pass on a line that is exactly the marker, one space and
a remainder `R` that does not start with whitespace and contains no further
occurrence of the pattern: the marker and the space are deleted. -/
theorem reSubWsN_marker_head (pat : List Char) (hne : pat ≠ []) :
    ∀ n (R : List Char), (pat ++ ' ' :: R).length ≤ n → headIsWs R = false →
      containsSub pat R = false →
      reSubWsN pat n (pat ++ ' ' :: R) = R := by
  intro n R hn hws hc
  cases n with
  | zero =>
    exfalso
    have := List.length_pos.mpr (by simp [hne] : pat ++ ' ' :: R ≠ [])
    omega
  | succ n =>
    cases pat with
    | nil => exact absurd rfl hne
    | cons p ps =>
      have hpfx : (p :: ps).isPrefixOf ((p :: ps) ++ ' ' :: R) = true :=
        List.isPrefixOf_iff_prefix.mpr ( List.prefix_append _ _)
      have hdrop : ((p :: ps) ++ ' ' :: R).drop (p :: ps).length = ' ' :: R :=
        List.drop_left _ _
      rw [List.cons_append] at hpfx hdrop ⊢
      simp only [reSubWsN, hpfx, hdrop, List.isEmpty_cons, Bool.not_false,
        Bool.true_and, Bool.and_true, headIsWs, isPySpace]
      norm_num
      rw [List.dropWhile]
      norm_num [isPySpace]
      rw [dropWhile_of_headIsWs_false R hws]
      apply reSubWsN_of_not_contains (p :: ps) n R _ hc
      have hlen : ((p :: ps) ++ ' ' :: R).length = ps.length + R.length + 2 := by
        simp
        omega
      omega

/-- Stripping the marker from a line of the exact shape `".dark-mode " ++ R`
(with `R` not starting with whitespace, containing no further `".dark-mode"`,
and the whole line containing no `"body.dark-mode"`) yields `R`. -/
theorem stripMarker_marker_head (R : List Char)
    (hb : containsSub bodyMarker (darkMarker ++ ' ' :: R) = false)
    (hws : headIsWs R = false)
    (hc : containsSub darkMarker R = false) :
    stripMarker (darkMarker ++ ' ' :: R) = R := by
  unfold stripMarker
  have h1 : reSubWsN bodyMarker (darkMarker ++ ' ' :: R).length (darkMarker ++ ' ' :: R)
      = darkMarker ++ ' ' :: R :=
    reSubWsN_of_not_contains bodyMarker _ _ le_rfl hb
  simp only [h1]
  exact reSubWsN_marker_head darkMarker (by decide) _ R le_rfl hws hc

/-- A line of the shape `".dark-mode " ++ R` takes the dark branch. -/
theorem isDarkLine_marker_head (R : List Char) :
    isDarkLine (darkMarker ++ ' ' :: R) = true := by
  unfold isDarkLine
  rw [containsSub_of_start darkMarker (' ' :: R)]
  simp

/-- Processing a single dark-rule line `".dark-mode " ++ R` with an empty
accumulator emits exactly the unscoped line `R`. -/
theorem mergeFrom_single_dark (R : List Char)
    (hb : containsSub bodyMarker (darkMarker ++ ' ' :: R) = false)
    (hws : headIsWs R = false)
    (hc : containsSub darkMarker R = false) :
    mergeFrom [darkMarker ++ ' ' :: R] [] = [R] := by
  rw [mergeFrom_cons_dark_emit _ _ _ (isDarkLine_marker_head R) (by simp)]
  rw [stripMarker_marker_head R hb hws hc]
  simp [absorbed, afterCapture, captureBlock, mergeFrom_nil]

/-! ### A marker-free stylesheet passes through unchanged -/

/-- The needle `".dark-mode"` occurs in both scoped-override needles, so a
match of the override test forces the marker to occur in the line. -/
theorem marker_of_matchesOverride (sel l : List Char)
    (h : matchesOverride sel l = true) : containsSub darkMarker l = true := by
  unfold matchesOverride at h
  rcases Bool.or_eq_true_iff.mp h with h | h
  · refine containsSub_mono ?_ h
    have h1 : darkMarker <:+: bodyMarker := ⟨['b', 'o', 'd', 'y'], [], by rfl⟩
    exact infix_extend_right (' ' :: sel) h1
  · exact containsSub_mono (infix_extend_right (' ' :: sel)
      ( List.prefix_append darkMarker []).isInfix) (by simpa using h)

/-- The lookahead finds no override among marker-free lines. -/
theorem hasDarkOverride_false_of_no_marker (sel : List Char) :
    ∀ ls : List (List Char), (∀ l ∈ ls, containsSub darkMarker l = false) →
      hasDarkOverride sel ls = false := by
  intro ls h
  induction ls with
  | nil => rfl
  | cons l rest ih =>
    have hm : matchesOverride sel l = false := by
      by_contra hx
      have hx' : matchesOverride sel l = true := by simpa using hx
      have := marker_of_matchesOverride sel l hx'
      rw [h l (by simp)] at this
      exact Bool.false_ne_true this
    simp only [hasDarkOverride, hm, Bool.false_eq_true, if_false]
    split
    · rfl
    · exact ih (fun l0 hl0 => h l0 (List.mem_cons_of_mem _ hl0))

/-- A marker in neither form occurs in a marker-free line. -/
theorem isDarkLine_false_of_no_marker (l : List Char)
    (h : containsSub darkMarker l = false) : isDarkLine l = false := by
  unfold isDarkLine
  have hb : containsSub bodyMarker l = false := by
    by_contra hx
    have hx' : containsSub bodyMarker l = true := by simpa using hx
    have := containsSub_mono (⟨['b', 'o', 'd', 'y'], [], by rfl⟩ :
      darkMarker <:+: bodyMarker) hx'
    rw [h] at this
    exact Bool.false_ne_true this
  simp [hb, h]

/-- The merge loop is the identity on a line list none of whose lines
contains the substring `".dark-mode"`. -/
theorem mergeFrom_no_marker_id :
    ∀ ls merged : List (List Char), (∀ l ∈ ls, containsSub darkMarker l = false) →
      mergeFrom ls merged = ls := by
  intro ls
  induction ls with
  | nil => intro merged _; rfl
  | cons line rest ih =>
    intro merged h
    have hd : isDarkLine line = false :=
      isDarkLine_false_of_no_marker line (h line (by simp))
    have hrest : ∀ l ∈ rest, containsSub darkMarker l = false :=
      fun l hl => h l (List.mem_cons_of_mem _ hl)
    by_cases ho : isRuleOpener line = true
    · rw [mergeFrom_cons_emit line rest merged hd ho
        (hasDarkOverride_false_of_no_marker _ rest hrest)]
      rw [ih merged hrest]
    · have ho' : isRuleOpener line = false := by simpa using ho
      rw [mergeFrom_cons_pass line rest merged hd ho']
      rw [ih merged hrest]

/-! ### Provenance of output lines -/

/-- Every output line of the merge loop is either an input line copied
verbatim or the marker-stripped form of an input line. -/
theorem mergeAuxN_mem :
    ∀ n (ls merged : List (List Char)) (l : List Char), ls.length ≤ n →
      l ∈ mergeAuxN n ls merged →
      l ∈ ls ∨ ∃ l0 ∈ ls, l = stripMarker l0 := by
  intro n
  induction n with
  | zero =>
    intro ls merged l hn hl
    have hls : ls = [] := List.length_eq_zero.mp (Nat.le_zero.mp hn)
    subst hls
    simp [mergeAuxN] at hl
  | succ n ih =>
    intro ls merged l hn hl
    cases ls with
    | nil => simp [mergeAuxN] at hl
    | cons line rest =>
      have hr : rest.length ≤ n := by simpa using hn
      simp only [mergeAuxN] at hl
      by_cases hd : isDarkLine line = true
      · simp only [hd, if_true] at hl
        by_cases hmem : pyStrip (stripMarker line) ∈ merged
        · simp only [hmem, if_pos] at hl
          rcases ih _ _ _ ((afterCapture_length_le _ _).trans hr) hl with h | ⟨l0, hl0, he⟩
          · exact Or.inl (List.mem_cons_of_mem _ ((afterCapture_suffix _ _).subset h))
          · exact Or.inr ⟨l0, List.mem_cons_of_mem _ ((afterCapture_suffix _ _).subset hl0), he⟩
        · simp only [hmem, if_neg, not_false_iff, List.cons_append, List.mem_cons,
            List.mem_append] at hl
          rcases hl with hl | hl | hl
          · exact Or.inr ⟨line, by simp, hl⟩
          · exact Or.inl (List.mem_cons_of_mem _ (mem_absorbed _ _ hl))
          · rcases ih _ _ _ ((afterCapture_length_le _ _).trans hr) hl with h | ⟨l0, hl0, he⟩
            · exact Or.inl (List.mem_cons_of_mem _ ((afterCapture_suffix _ _).subset h))
            · exact Or.inr ⟨l0, List.mem_cons_of_mem _ ((afterCapture_suffix _ _).subset hl0), he⟩
      · have hd' : isDarkLine line = false := by simpa using hd
        simp only [hd', Bool.false_eq_true, if_false] at hl
        by_cases ho : isRuleOpener line = true
        · simp only [ho, if_true] at hl
          by_cases hov : hasDarkOverride (lineSelector line) rest = true
          · simp only [hov, if_true] at hl
            rcases ih _ _ _ ((skipBlock_length_le _ _).trans hr) hl with h | ⟨l0, hl0, he⟩
            · exact Or.inl (List.mem_cons_of_mem _ ((skipBlock_suffix _ _).subset h))
            · exact Or.inr ⟨l0, List.mem_cons_of_mem _ ((skipBlock_suffix _ _).subset hl0), he⟩
          · have hov' : hasDarkOverride (lineSelector line) rest = false := by simpa using hov
            simp only [hov', Bool.false_eq_true, if_false, List.mem_cons] at hl
            rcases hl with hl | hl
            · exact Or.inl (by simp [hl])
            · rcases ih _ _ _ hr hl with h | ⟨l0, hl0, he⟩
              · exact Or.inl (List.mem_cons_of_mem _ h)
              · exact Or.inr ⟨l0, List.mem_cons_of_mem _ hl0, he⟩
        · have ho' : isRuleOpener line = false := by simpa using ho
          simp only [ho', Bool.false_eq_true, if_false, List.mem_cons] at hl
          rcases hl with hl | hl
          · exact Or.inl (by simp [hl])
          · rcases ih _ _ _ hr hl with h | ⟨l0, hl0, he⟩
            · exact Or.inl (List.mem_cons_of_mem _ h)
            · exact Or.inr ⟨l0, List.mem_cons_of_mem _ hl0, he⟩

/-! ### Characterisation of the code's lookahead -/

/-- Claim C3 (amended): the forward lookahead of `merge_dark_mode_css` stops
early exactly when either a matching override line is found or a scanned
candidate line individually contains more than 3 occurrences of the opening
brace (4 or more on one line); the cumulative count across scanned lines is
not tracked.  Stated as: the lookahead reports an override exactly when some
candidate line matches the scoped-override needles and every earlier candidate
line neither matches nor individually contains more than three opening
braces. -/
theorem claim_C3_amended_lookahead (sel : List Char) :
    ∀ ls : List (List Char),
      hasDarkOverride sel ls = true ↔
        ∃ pre l post, ls = pre ++ l :: post ∧ matchesOverride sel l = true ∧
          ∀ l0 ∈ pre, matchesOverride sel l0 = false ∧ countChar obr l0 ≤ 3 := by
  intro ls
  induction ls with
  | nil =>
    constructor
    · intro h
      exact absurd h (by simp [hasDarkOverride])
    · rintro ⟨pre, l, post, h, -, -⟩
      exact absurd h.symm (by simp)
  | cons a rest ih =>
    by_cases hm : matchesOverride sel a = true
    · simp only [hasDarkOverride, hm, if_true]
      constructor
      · intro _
        exact ⟨[], a, rest, rfl, hm, by simp⟩
      · intro _
        trivial
    · have hm' : matchesOverride sel a = false := by simpa using hm
      by_cases hcnt : 3 < countChar obr a
      · simp only [hasDarkOverride, hm', Bool.false_eq_true, if_false, hcnt, if_true]
        constructor
        · intro h
          exact absurd h (by simp)
        · rintro ⟨pre, l, post, heq, hml, hall⟩
          exfalso
          cases pre with
          | nil =>
            rw [List.nil_append] at heq
            injection heq with h1 _
            rw [← h1] at hml
            rw [hm'] at hml
            exact Bool.false_ne_true hml
          | cons p ps =>
            rw [List.cons_append] at heq
            injection heq with h1 _
            have hple := (hall p (by simp)).2
            rw [← h1] at hple
            omega
      · have hcnt' : ¬ 3 < countChar obr a := hcnt
        simp only [hasDarkOverride, hm', Bool.false_eq_true, if_false, hcnt', ih]
        constructor
        · rintro ⟨pre, l, post, heq, hml, hall⟩
          refine ⟨a :: pre, l, post, by rw [heq, List.cons_append], hml, ?_⟩
          intro l0 hl0
          rcases List.mem_cons.mp hl0 with h | h
          · subst h
            exact ⟨hm', by omega⟩
          · exact hall l0 h
        · rintro ⟨pre, l, post, heq, hml, hall⟩
          cases pre with
          | nil =>
            rw [List.nil_append] at heq
            injection heq with h1 _
            rw [← h1] at hml
            rw [hm'] at hml
            exact absurd hml Bool.false_ne_true
          | cons p ps =>
            rw [List.cons_append] at heq
            injection heq with h1 h2
            exact ⟨ps, l, post, h2, hml, fun l0 hl0 => hall l0 (List.mem_cons_of_mem _ hl0)⟩

/-! ### The output file naming transform -/

/-- Without an occurrence of `".css"`, the replacement is the identity. -/
theorem replaceAllN_of_not_contains :
    ∀ n (p : List Char), p.length ≤ n → containsSub cssExt p = false →
      replaceAllN cssExt mergedExt n p = p := by
  intro n
  induction n with
  | zero =>
    intro p h _
    have hp : p = [] := List.length_eq_zero.mp (Nat.le_zero.mp h)
    subst hp
    rfl
  | succ n ih =>
    intro p h hc
    cases p with
    | nil => rfl
    | cons c cs =>
      simp only [containsSub, Bool.or_eq_false_iff] at hc
      simp only [replaceAllN, hc.1, Bool.and_false, Bool.false_eq_true, if_false]
      rw [ih cs (by simpa using h) hc.2]

/-- The replacement never shortens the path. -/
theorem replaceAllN_length_ge :
    ∀ n (p : List Char), p.length ≤ n →
      p.length ≤ (replaceAllN cssExt mergedExt n p).length := by
  intro n
  induction n with
  | zero =>
    intro p h
    have hp : p = [] := List.length_eq_zero.mp (Nat.le_zero.mp h)
    subst hp
    simp
  | succ n ih =>
    intro p h
    cases p with
    | nil => simp
    | cons c cs =>
      simp only [List.length_cons] at h
      by_cases hp : cssExt.isPrefixOf (c :: cs) = true
      · have hcond : (!cssExt.isEmpty && cssExt.isPrefixOf (c :: cs)) = true := by
          rw [hp]; rfl
        simp only [replaceAllN, hcond, if_true]
        have hpfx : cssExt <+: c :: cs := List.isPrefixOf_iff_prefix.mp hp
        have hlen4 : 4 ≤ cs.length + 1 := by
          have hx := hpfx.length_le
          simpa [cssExt] using hx
        have hdrop : ((c :: cs).drop cssExt.length).length = cs.length + 1 - 4 := by
          simp [cssExt]
        have hrec := ih ((c :: cs).drop cssExt.length) (by rw [hdrop]; omega)
        rw [hdrop] at hrec
        have hme : mergedExt.length = 11 := rfl
        rw [List.length_append, hme, List.length_cons]
        omega
      · have hp' : cssExt.isPrefixOf (c :: cs) = false := Bool.eq_false_iff.mpr hp
        have hcond : (!cssExt.isEmpty && cssExt.isPrefixOf (c :: cs)) = false := by
          rw [hp']; simp
        simp only [replaceAllN, hcond, Bool.false_eq_true, if_false, List.length_cons]
        have hrec := ih cs (by omega)
        omega

/-- With an occurrence of `".css"`, the replacement strictly lengthens the
path, hence changes it. -/
theorem replaceAllN_length_gt :
    ∀ n (p : List Char), p.length ≤ n → containsSub cssExt p = true →
      p.length < (replaceAllN cssExt mergedExt n p).length := by
  intro n
  induction n with
  | zero =>
    intro p h hc
    have hp : p = [] := List.length_eq_zero.mp (Nat.le_zero.mp h)
    subst hp
    exact absurd hc (by decide)
  | succ n ih =>
    intro p h hc
    cases p with
    | nil => exact absurd hc (by decide)
    | cons c cs =>
      simp only [List.length_cons] at h
      by_cases hp : cssExt.isPrefixOf (c :: cs) = true
      · have hcond : (!cssExt.isEmpty && cssExt.isPrefixOf (c :: cs)) = true := by
          rw [hp]; rfl
        simp only [replaceAllN, hcond, if_true]
        have hpfx : cssExt <+: c :: cs := List.isPrefixOf_iff_prefix.mp hp
        have hlen4 : 4 ≤ cs.length + 1 := by
          have hx := hpfx.length_le
          simpa [cssExt] using hx
        have hdrop : ((c :: cs).drop cssExt.length).length = cs.length + 1 - 4 := by
          simp [cssExt]
        have hrec := replaceAllN_length_ge n ((c :: cs).drop cssExt.length)
          (by rw [hdrop]; omega)
        rw [hdrop] at hrec
        have hme : mergedExt.length = 11 := rfl
        rw [List.length_append, hme, List.length_cons]
        omega
      · have hp' : cssExt.isPrefixOf (c :: cs) = false := Bool.eq_false_iff.mpr hp
        have hc' : containsSub cssExt cs = true := by
          simp only [containsSub, hp', Bool.false_or] at hc
          exact hc
        have hcond : (!cssExt.isEmpty && cssExt.isPrefixOf (c :: cs)) = false := by
          rw [hp']; simp
        simp only [replaceAllN, hcond, Bool.false_eq_true, if_false, List.length_cons]
        have hrec := ih cs (by omega) hc'
        omega

/-- `'\n'.join` undoes `split('\n')`. -/
theorem joinNl_splitNl (css : List Char) : joinNl (splitNl css) = css :=
  List.intercalate_splitOn css '\n'

/-! ### Claims -/

/-- Claim C1, counterexample: the claim states that no output line of
`merge_dark_mode_css` contains a dark-mode scope marker.  On the input
`".dark-mode a {}\n.dark-mode b {}"` the second dark rule is absorbed
verbatim into the first rule's emitted block, so an output line contains the
marker `".dark-mode "`. -/
theorem claim_C1_counterexample :
    (splitNl (merge_dark_mode_css
        (String.toList ".dark-mode a \x7b\x7d\n.dark-mode b \x7b\x7d"))).any
      (fun l => containsSub (darkMarker ++ [' ']) l) = true := by decide

/-- Claim C1 (amended): every output line of `merge_dark_mode_css` is either
an input line copied verbatim or the result of applying the two marker
substitutions to an input line; a marker-free output is not guaranteed,
because lines captured inside a dark block (and the line absorbed after it)
are copied unchanged. -/
theorem claim_C1_amended_provenance (css l : List Char)
    (h : l ∈ mergeLines (splitNl css)) :
    l ∈ splitNl css ∨ ∃ l0 ∈ splitNl css, l = stripMarker l0 :=
  mergeAuxN_mem (splitNl css).length (splitNl css) [] l le_rfl h

/-- Witness for C1 (amended) at a concrete input and output line. -/
theorem claim_C1_witness :
    String.toList ".dark-mode b \x7b\x7d" ∈
      mergeLines (splitNl (String.toList ".dark-mode a \x7b\x7d\n.dark-mode b \x7b\x7d")) ∧
    (String.toList ".dark-mode b \x7b\x7d" ∈
        splitNl (String.toList ".dark-mode a \x7b\x7d\n.dark-mode b \x7b\x7d") ∨
      ∃ l0 ∈ splitNl (String.toList ".dark-mode a \x7b\x7d\n.dark-mode b \x7b\x7d"),
        String.toList ".dark-mode b \x7b\x7d" = stripMarker l0) :=
  ⟨by decide, claim_C1_amended_provenance _ _ (by decide)⟩

/-- Claim C2, counterexample: the claim states that whenever a base rule for a
selector has a dark-scoped rule for the same selector within the bounded
lookahead, the output contains only the marker-stripped dark version and not
the base version.  On the input below, the base line `.a { color: red; }` is
absorbed verbatim into the preceding dark rule's block, so the output
contains the base version although the dark override is adjacent to it. -/
theorem claim_C2_counterexample :
    merge_dark_mode_css (String.toList
        ".dark-mode .b \x7b\x7d\n.a \x7b color: red; \x7d\n.dark-mode .a \x7b color: blue; \x7d")
      = String.toList ".b \x7b\x7d\n.a \x7b color: red; \x7d\n.a \x7b color: blue; \x7d" ∧
    String.toList ".a \x7b color: red; \x7d" ∈
      splitNl (merge_dark_mode_css (String.toList
        ".dark-mode .b \x7b\x7d\n.a \x7b color: red; \x7d\n.dark-mode .a \x7b color: blue; \x7d")) :=
  ⟨by decide, by decide⟩

/-- Claim C2 (amended): for a two-line input whose first line is a non-dark,
brace-balanced rule-opening line and whose second line is `".dark-mode " ++ R`
matching the scoped-override needle for the first line's selector (with `R`
not starting with whitespace and containing no further marker occurrence),
the output is exactly `[R]`: the dark-scoped version marker-stripped, and the
base version dropped.  This is the original claim restricted to inputs where
the base opening line is actually reached by the scanner. -/
theorem claim_C2_amended_pair_merge (L0 R : List Char)
    (hd : isDarkLine L0 = false)
    (ho : isRuleOpener L0 = true)
    (hdelta : braceDelta L0 = 0)
    (hmatch : matchesOverride (lineSelector L0) (darkMarker ++ ' ' :: R) = true)
    (hb : containsSub bodyMarker (darkMarker ++ ' ' :: R) = false)
    (hws : headIsWs R = false)
    (hc : containsSub darkMarker R = false) :
    mergeLines [L0, darkMarker ++ ' ' :: R] = [R] := by
  have hov : hasDarkOverride (lineSelector L0) [darkMarker ++ ' ' :: R] = true := by
    simp only [hasDarkOverride, hmatch, if_true]
  show mergeFrom [L0, darkMarker ++ ' ' :: R] [] = [R]
  rw [mergeFrom_cons_skip L0 [darkMarker ++ ' ' :: R] [] hd ho hov, hdelta]
  have hskip : skipBlock 0 [darkMarker ++ ' ' :: R] = [darkMarker ++ ' ' :: R] := by
    norm_num [skipBlock]
  rw [hskip]
  exact mergeFrom_single_dark R hb hws hc

/-- Witness for C2 (amended): the spec's own scenario, a base rule
immediately followed by its dark override. -/
theorem claim_C2_witness :
    (isDarkLine (String.toList ".card \x7b color: #000; \x7d") = false ∧
     isRuleOpener (String.toList ".card \x7b color: #000; \x7d") = true ∧
     braceDelta (String.toList ".card \x7b color: #000; \x7d") = 0 ∧
     matchesOverride (lineSelector (String.toList ".card \x7b color: #000; \x7d"))
       (darkMarker ++ ' ' :: String.toList ".card \x7b color: #fff; \x7d") = true ∧
     containsSub bodyMarker
       (darkMarker ++ ' ' :: String.toList ".card \x7b color: #fff; \x7d") = false ∧
     headIsWs (String.toList ".card \x7b color: #fff; \x7d") = false ∧
     containsSub darkMarker (String.toList ".card \x7b color: #fff; \x7d") = false) ∧
    mergeLines [String.toList ".card \x7b color: #000; \x7d",
        darkMarker ++ ' ' :: String.toList ".card \x7b color: #fff; \x7d"]
      = [String.toList ".card \x7b color: #fff; \x7d"] :=
  ⟨⟨by decide, by decide, by decide, by decide, by decide, by decide, by decide⟩,
   claim_C2_amended_pair_merge _ _ (by decide) (by decide) (by decide) (by decide)
     (by decide) (by decide) (by decide)⟩

/-- Claim C3, counterexample: the claim states the lookahead stops early
exactly on a match or once the cumulative count of opening braces over the
scanned candidate lines reaches 4 or more.  Below, four candidate lines with
one opening brace each accumulate a count of 4, after which the code's
lookahead still scans on and finds the override (so the base rule is dropped
from the output), while the spec-worded cumulative lookahead stops and
reports no override. -/
theorem claim_C3_counterexample :
    hasDarkOverride (String.toList ".a")
      [String.toList ".b1 \x7b y \x7d", String.toList ".b2 \x7b y \x7d",
       String.toList ".b3 \x7b y \x7d", String.toList ".b4 \x7b y \x7d",
       String.toList ".dark-mode .a \x7b z \x7d"] = true ∧
    specCumulativeLookahead (String.toList ".a") 0
      [String.toList ".b1 \x7b y \x7d", String.toList ".b2 \x7b y \x7d",
       String.toList ".b3 \x7b y \x7d", String.toList ".b4 \x7b y \x7d",
       String.toList ".dark-mode .a \x7b z \x7d"] = false ∧
    String.toList ".a \x7b x \x7d" ∉
      splitNl (merge_dark_mode_css (String.toList
        ".a \x7b x \x7d\n.b1 \x7b y \x7d\n.b2 \x7b y \x7d\n.b3 \x7b y \x7d\n.b4 \x7b y \x7d\n.dark-mode .a \x7b z \x7d")) :=
  ⟨by decide, by decide, by decide⟩

/-- Claim C4, counterexample: the claim states that a dark-scoped rule for a
selector with no base rule for it always yields exactly one unscoped rule for
that selector.  On the input below there is no base rule for `.q`, yet the
output contains no unscoped rule for `.q`: the second dark line is absorbed
verbatim (marker intact) into the first dark rule's block. -/
theorem claim_C4_counterexample :
    merge_dark_mode_css (String.toList ".dark-mode .p \x7b\x7d\n.dark-mode .q \x7b\x7d")
      = String.toList ".p \x7b\x7d\n.dark-mode .q \x7b\x7d" ∧
    String.toList ".q \x7b\x7d" ∉
      splitNl (merge_dark_mode_css
        (String.toList ".dark-mode .p \x7b\x7d\n.dark-mode .q \x7b\x7d")) :=
  ⟨by decide, by decide⟩

/-- Claim C4 (amended): for an input consisting of a single dark-scoped line
`".dark-mode " ++ R` (with `R` not starting with whitespace, containing no
further occurrence of `".dark-mode"`, and the line containing no
`"body.dark-mode"`), the output is exactly the unscoped line `R`.  This is
the original claim restricted to dark lines actually processed as dark rule
openers rather than absorbed into a preceding block. -/
theorem claim_C4_amended_single_dark (R : List Char)
    (hb : containsSub bodyMarker (darkMarker ++ ' ' :: R) = false)
    (hws : headIsWs R = false)
    (hc : containsSub darkMarker R = false) :
    mergeLines [darkMarker ++ ' ' :: R] = [R] :=
  mergeFrom_single_dark R hb hws hc

/-- Witness for C4 (amended) at a concrete dark rule. -/
theorem claim_C4_witness :
    (containsSub bodyMarker
       (darkMarker ++ ' ' :: String.toList ".q \x7b color: #eee; \x7d") = false ∧
     headIsWs (String.toList ".q \x7b color: #eee; \x7d") = false ∧
     containsSub darkMarker (String.toList ".q \x7b color: #eee; \x7d") = false) ∧
    mergeLines [darkMarker ++ ' ' :: String.toList ".q \x7b color: #eee; \x7d"]
      = [String.toList ".q \x7b color: #eee; \x7d"] :=
  ⟨⟨by decide, by decide, by decide⟩,
   claim_C4_amended_single_dark _ (by decide) (by decide) (by decide)⟩

/-- Claim C5, counterexample: the claim states `merge_dark_mode_css` is
idempotent on its own output for every input.  On the input below the first
pass leaves a marker in its output (an absorbed dark line), and the second
pass strips it, so the two results differ. -/
theorem claim_C5_counterexample :
    merge_dark_mode_css (merge_dark_mode_css
        (String.toList ".dark-mode a \x7b\x7d\n.dark-mode b \x7b\x7d"))
      ≠ merge_dark_mode_css (String.toList ".dark-mode a \x7b\x7d\n.dark-mode b \x7b\x7d") := by
  decide

/-- Claim C5 (amended): `merge_dark_mode_css` is the identity on any
stylesheet none of whose lines contains the substring `".dark-mode"`; hence
applying it twice agrees with applying it once on every input whose first
output is marker-free.  The condition is sufficient, not necessary: a line
such as `".dark-mode{x}"` is left unchanged (no whitespace follows the
marker, so the substitution does not fire), giving marker-retaining fixed
points.  Unconditional idempotence fails, see the counterexample. -/
theorem claim_C5_amended_conditional_idempotence (css : List Char)
    (h : ∀ l ∈ splitNl (merge_dark_mode_css css), containsSub darkMarker l = false) :
    merge_dark_mode_css (merge_dark_mode_css css) = merge_dark_mode_css css := by
  have h1 : mergeFrom (splitNl (merge_dark_mode_css css)) []
      = splitNl (merge_dark_mode_css css) :=
    mergeFrom_no_marker_id _ _ h
  show joinNl (mergeFrom (splitNl (merge_dark_mode_css css)) []) = merge_dark_mode_css css
  rw [h1]
  exact joinNl_splitNl _

/-- Witness for C5 (amended) at a concrete marker-free stylesheet. -/
theorem claim_C5_witness :
    (∀ l ∈ splitNl (merge_dark_mode_css (String.toList ".card \x7b color: red; \x7d")),
      containsSub darkMarker l = false) ∧
    merge_dark_mode_css (merge_dark_mode_css (String.toList ".card \x7b color: red; \x7d"))
      = merge_dark_mode_css (String.toList ".card \x7b color: red; \x7d") :=
  ⟨by decide, claim_C5_amended_conditional_idempotence _ (by decide)⟩

/-- Claim C6, counterexample: the claim states that of several dark-scoped
rules for the same selector only the first is emitted and every later one is
silently discarded.  On the input below (two identical dark rules for `.a`),
the second rule's opening line is absorbed verbatim into the first rule's
emitted block and its body lines pass through: nothing is discarded. -/
theorem claim_C6_counterexample :
    merge_dark_mode_css (String.toList
        ".dark-mode .a \x7b\n  color: red;\n\x7d\n.dark-mode .a \x7b\n  color: blue;\n\x7d")
      = String.toList
        ".a \x7b\n  color: red;\n\x7d\n.dark-mode .a \x7b\n  color: blue;\n\x7d" ∧
    String.toList ".dark-mode .a \x7b" ∈
      splitNl (merge_dark_mode_css (String.toList
        ".dark-mode .a \x7b\n  color: red;\n\x7d\n.dark-mode .a \x7b\n  color: blue;\n\x7d")) :=
  ⟨by decide, by decide⟩

/-- Claim C6 (amended): a later dark-scoped opening line is discarded exactly
when it is itself reached by the scanner and its dedup key (the stripped,
whitespace-trimmed opening line) was already recorded: in that case the whole
captured block (absorbed line included) contributes nothing to the output and
processing resumes after it.  Dark rules whose opening lines are absorbed
into a preceding block are not discarded (see the counterexample). -/
theorem claim_C6_amended_discard (line : List Char) (rest merged : List (List Char))
    (hd : isDarkLine line = true)
    (hmem : pyStrip (stripMarker line) ∈ merged) :
    mergeFrom (line :: rest) merged = mergeFrom (afterCapture (braceDelta line) rest) merged :=
  mergeFrom_cons_dark_discard line rest merged hd hmem

/-- Witness for C6 (amended): a dark rule whose key is already recorded is
discarded. -/
theorem claim_C6_witness :
    (isDarkLine (String.toList ".dark-mode .x \x7bc\x7d") = true ∧
     pyStrip (stripMarker (String.toList ".dark-mode .x \x7bc\x7d")) ∈
       [String.toList ".x \x7bc\x7d"]) ∧
    mergeFrom [String.toList ".dark-mode .x \x7bc\x7d"] [String.toList ".x \x7bc\x7d"]
      = mergeFrom (afterCapture (braceDelta (String.toList ".dark-mode .x \x7bc\x7d")) [])
          [String.toList ".x \x7bc\x7d"] :=
  ⟨⟨by decide, by decide⟩,
   claim_C6_amended_discard _ _ _ (by decide) (by decide)⟩

/-- Claim C7: on the two-line input with the dark rule first and the base
rule second, the output contains the marker-stripped dark line at its
original (first) position and retains the base line unchanged: override
detection is strictly forward-scanning. -/
theorem claim_C7_concrete_scenario :
    merge_dark_mode_css (String.toList
        "body.dark-mode .card \x7b color: #fff; \x7d\n.card \x7b color: #000; \x7d")
      = String.toList ".card \x7b color: #fff; \x7d\n.card \x7b color: #000; \x7d" ∧
    splitNl (merge_dark_mode_css (String.toList
        "body.dark-mode .card \x7b color: #fff; \x7d\n.card \x7b color: #000; \x7d"))
      = [String.toList ".card \x7b color: #fff; \x7d",
         String.toList ".card \x7b color: #000; \x7d"] :=
  ⟨by decide, by decide⟩

/-- Claim C8: `merge_dark_mode_css` terminates on every input.  In this
embedding: fuel equal to the number of remaining lines always suffices for
the main loop (every iteration consumes at least one line), and each
brace-counting scan stops at end of input, returning a suffix of its input:
end of input acts as an implicit block close.  The concrete conjunct runs the
whole function on a stylesheet with an unclosed brace. -/
theorem claim_C8_termination :
    (∀ (n : Nat) (ls merged : List (List Char)), ls.length ≤ n →
      mergeAuxN n ls merged = mergeFrom ls merged) ∧
    (∀ (bc : Int) (ls : List (List Char)),
      skipBlock bc ls <:+ ls ∧ (captureBlock bc ls).2 <:+ ls) ∧
    merge_dark_mode_css (String.toList ".card \x7b\n  color: red;")
      = String.toList ".card \x7b\n  color: red;" := by
  refine ⟨?_, ?_, by decide⟩
  · intro n ls merged hn
    exact mergeAuxN_fuel n ls.length ls merged hn le_rfl
  · intro bc ls
    exact ⟨skipBlock_suffix bc ls, captureBlock_snd_suffix bc ls⟩

/-- Witness for C8 at concrete fuel and input. -/
theorem claim_C8_witness :
    [String.toList "x"].length ≤ 3 ∧
    mergeAuxN 3 [String.toList "x"] [] = mergeFrom [String.toList "x"] [] :=
  ⟨by decide, claim_C8_termination.1 3 [String.toList "x"] [] (by decide)⟩

/-- Claim C9, counterexample: the claim states the output path always differs
from the input path.  The naming transform is `path.replace('.css',
'_merged.css')`, which is the identity on a path containing no `".css"`, so
such an input file is overwritten. -/
theorem claim_C9_counterexample :
    output_path (String.toList "style.txt") = String.toList "style.txt" := by decide

/-- Claim C9 (amended): the output path is the input path with every
occurrence of `".css"` replaced by `"_merged.css"`; it equals the input path
exactly when the input path contains no occurrence of `".css"` (in which case
the input file is overwritten), and differs otherwise. -/
theorem claim_C9_amended_path_iff (p : List Char) :
    output_path p = p ↔ containsSub cssExt p = false := by
  constructor
  · intro h
    cases hcs : containsSub cssExt p with
    | false => rfl
    | true =>
      exfalso
      have hgt := replaceAllN_length_gt p.length p le_rfl hcs
      rw [show replaceAllN cssExt mergedExt p.length p = output_path p from rfl, h] at hgt
      omega
  · intro h
    exact replaceAllN_of_not_contains p.length p le_rfl h

/-- Claim C10: when the dark-block capture loop finishes and at least one
input line remains, that next line is unconditionally appended to the
captured block and (when the block is emitted) emitted verbatim as part of
it, without marker stripping or override checking; processing resumes after
the absorbed line. -/
theorem claim_C10_absorbs_next_line (line x : List Char) (rest xs merged : List (List Char))
    (hd : isDarkLine line = true)
    (hsnd : (captureBlock (braceDelta line) rest).2 = x :: xs)
    (hmem : pyStrip (stripMarker line) ∉ merged) :
    mergeFrom (line :: rest) merged =
      stripMarker line :: (captureBlock (braceDelta line) rest).1 ++ x ::
        mergeFrom xs (pyStrip (stripMarker line) :: merged) := by
  rw [mergeFrom_cons_dark_emit line rest merged hd hmem]
  unfold absorbed afterCapture
  rw [hsnd]
  simp

/-- Witness for C10: a single-line dark rule followed by a line that is
absorbed verbatim. -/
theorem claim_C10_witness :
    (isDarkLine (String.toList ".dark-mode a \x7b c \x7d") = true ∧
     (captureBlock (braceDelta (String.toList ".dark-mode a \x7b c \x7d"))
        [String.toList "x \x7d y", String.toList "tail"]).2
       = String.toList "x \x7d y" :: [String.toList "tail"] ∧
     pyStrip (stripMarker (String.toList ".dark-mode a \x7b c \x7d")) ∉
       ([] : List (List Char))) ∧
    mergeFrom (String.toList ".dark-mode a \x7b c \x7d" ::
        [String.toList "x \x7d y", String.toList "tail"]) [] =
      stripMarker (String.toList ".dark-mode a \x7b c \x7d") ::
        (captureBlock (braceDelta (String.toList ".dark-mode a \x7b c \x7d"))
          [String.toList "x \x7d y", String.toList "tail"]).1 ++
        String.toList "x \x7d y" ::
        mergeFrom [String.toList "tail"]
          (pyStrip (stripMarker (String.toList ".dark-mode a \x7b c \x7d")) :: []) :=
  ⟨⟨by decide, by decide, by decide⟩,
   claim_C10_absorbs_next_line _ _ _ _ _ (by decide) (by decide) (by decide)⟩

